import Mathlib

/-!
Verification of the satellite tracking backend (src/main.py).

The development shallowly embeds the four core components of the program:
the coordinate transform eci_to_latlon, the elevation computation
elevation_angle relative to a ground station, the pass-detection scan
predict_passes, and the ground-track sampler generate_orbit_path.  Machine
floats are modelled as real numbers; the elevation samples consumed by the
pass detector are modelled as rationals so that the detector stays
executable.  A sample at which the propagator reports a nonzero status is
modelled as the value none.  Timestamps are modelled as whole seconds
elapsed since the start of the respective scan.
-/

namespace Satellite

/-- Earth radius constant of the source, in kilometres. -/
noncomputable def EARTH_RADIUS : ℝ := 6378.137

/-- Conversion from radians to degrees, the math.degrees of the source. -/
noncomputable def degrees (x : ℝ) : ℝ := x * 180 / Real.pi

/-- Two-argument arctangent, modelling math.atan2 of the source language:
quadrant aware, total, and atan2 0 0 = 0 without raising. -/
noncomputable def atan2 (y x : ℝ) : ℝ :=
  if 0 < x then Real.arctan (y / x)
  else if x < 0 then
    if 0 ≤ y then Real.arctan (y / x) + Real.pi else Real.arctan (y / x) - Real.pi
  else
    if 0 < y then Real.pi / 2 else if y < 0 then -(Real.pi / 2) else 0

/-- Source function eci_to_latlon: from an inertial position vector (x, y, z)
in kilometres to (latitude_deg, longitude_deg, altitude_km). -/
noncomputable def eci_to_latlon (r : ℝ × ℝ × ℝ) : ℝ × ℝ × ℝ :=
  (degrees (atan2 r.2.2 (Real.sqrt (r.1 * r.1 + r.2.1 * r.2.1))),
   degrees (atan2 r.2.1 r.1),
   Real.sqrt (r.1 * r.1 + r.2.1 * r.2.1 + r.2.2 * r.2.2) - EARTH_RADIUS)

/-- Ground station configuration: the values GS_LAT, GS_LON (radians) and
GS_ALT read from the environment.  As in the source, alt is added directly to
EARTH_RADIUS when the station vector is formed. -/
structure GroundStationConfig where
  lat : ℝ
  lon : ℝ
  alt : ℝ

/-- The argument passed to math.asin by the source function elevation_angle,
lines 82 to 89 of src/main.py: the dot product of the relative vector with the
station vector, divided by the slant range times the fixed constant
EARTH_RADIUS. -/
noncomputable def elevAsinArg (g : GroundStationConfig) (p : ℝ × ℝ × ℝ) : ℝ :=
  let xg := (EARTH_RADIUS + g.alt) * Real.cos g.lat * Real.cos g.lon
  let yg := (EARTH_RADIUS + g.alt) * Real.cos g.lat * Real.sin g.lon
  let zg := (EARTH_RADIUS + g.alt) * Real.sin g.lat
  let rx := p.1 - xg
  let ry := p.2.1 - yg
  let rz := p.2.2 - zg
  (rx * xg + ry * yg + rz * zg) / (Real.sqrt (rx * rx + ry * ry + rz * rz) * EARTH_RADIUS)

/-- Inverse sine as the source language provides it: math.asin raises a
ValueError outside the closed interval from -1 to 1, modelled by none. -/
noncomputable def asinOpt (x : ℝ) : Option ℝ :=
  if x < -1 ∨ 1 < x then none else some (Real.arcsin x)

/-- Source function elevation_angle: degrees of the inverse sine of
elevAsinArg; none models the ValueError raised by math.asin on a
domain fault. -/
noncomputable def elevation_angle (g : GroundStationConfig) (p : ℝ × ℝ × ℝ) :
    Option ℝ :=
  (asinOpt (elevAsinArg g p)).map degrees

/-- Modelled from the spec, for comparison with elevAsinArg: the inverse-sine
argument with the divisor the spec prescribes, namely the slant range times
the true magnitude of the station position vector. -/
noncomputable def elevAsinArgSpec (g : GroundStationConfig) (p : ℝ × ℝ × ℝ) : ℝ :=
  let xg := (EARTH_RADIUS + g.alt) * Real.cos g.lat * Real.cos g.lon
  let yg := (EARTH_RADIUS + g.alt) * Real.cos g.lat * Real.sin g.lon
  let zg := (EARTH_RADIUS + g.alt) * Real.sin g.lat
  let rx := p.1 - xg
  let ry := p.2.1 - yg
  let rz := p.2.2 - zg
  (rx * xg + ry * yg + rz * zg) /
    (Real.sqrt (rx * rx + ry * ry + rz * rz) * Real.sqrt (xg * xg + yg * yg + zg * zg))

/-- Modelled from the spec: the elevation the spec prescribes, with the
dimensionally correct divisor. -/
noncomputable def elevationSpec (g : GroundStationConfig) (p : ℝ × ℝ × ℝ) : ℝ :=
  degrees (Real.arcsin (elevAsinArgSpec g p))

/-- Completed visibility pass as inserted into the passes table.  Timestamps
are whole seconds since the start of the scan; duration_sec mirrors
int((t - aos).total_seconds()) of the source. -/
structure PassRecord where
  aos : Nat
  los : Nat
  max_elevation_deg : ℚ
  duration_sec : Nat
deriving DecidableEq

/-- Mutable scan state of predict_passes: the in_pass flag, the recorded aos
timestamp (None before the first pass opens) and the running max_el. -/
structure DetState where
  in_pass : Bool
  aos : Option Nat
  max_el : ℚ
deriving DecidableEq

/-- One iteration of the predict_passes loop body for the sample at
timestamp t.  A none sample models a nonzero propagator status: the source
does continue after stepping time forward, leaving the state untouched.
The three guarded branches mirror lines 143 to 157 of src/main.py. -/
def step (m : ℚ) (s : DetState) (t : Nat) (sample : Option ℚ) :
    DetState × List PassRecord :=
  match sample with
  | none => (s, [])
  | some el =>
    if m < el ∧ s.in_pass = false then
      (⟨true, some t, el⟩, [])
    else if m < el then
      (⟨s.in_pass, s.aos, max s.max_el el⟩, [])
    else if el ≤ m ∧ s.in_pass = true then
      (⟨false, s.aos, s.max_el⟩,
        [⟨s.aos.getD 0, t, s.max_el, t - s.aos.getD 0⟩])
    else (s, [])

/-- The scan loop of predict_passes from state s at time t over the remaining
samples, emitting pass records in the order the source inserts them; time
advances by the fixed 20 second step of the source. -/
def scanFrom (m : ℚ) : DetState → Nat → List (Option ℚ) → List PassRecord
  | _, _, [] => []
  | s, t, x :: rest =>
      (step m s t x).2 ++ scanFrom m (step m s t x).1 (t + 20) rest

/-- Source function predict_passes viewed as a function of the elevation
samples of the scan window: initial state has in_pass false, aos None and
max_el 0, and the scan starts at time 0. -/
def predict_passes (m : ℚ) (samples : List (Option ℚ)) : List PassRecord :=
  scanFrom m ⟨false, none, 0⟩ 0 samples

/-- C7: feeding the elevation sequence 2, 15, 30, 15, 2 degrees at the 20
second cadence with threshold 10 degrees emits exactly one pass record with
aos 20, los 80, max elevation 30 and duration 60 seconds. -/
theorem C7_scenario_single_pass :
    predict_passes 10 [some 2, some 15, some 30, some 15, some 2] =
      [⟨20, 80, 30, 60⟩] := by decide

/-- C4: a sample whose elevation equals the threshold exactly closes a pass
when the detector is in state InPass, emitting the record and returning to
Idle, and leaves the detector in Idle when it is Idle: it never starts a
pass. -/
theorem C4_threshold_tie_break (m : ℚ) (s : DetState) (t : Nat) :
    (step m s t (some m)).1.in_pass = false ∧
    (s.in_pass = true →
      step m s t (some m) =
        (⟨false, s.aos, s.max_el⟩, [⟨s.aos.getD 0, t, s.max_el, t - s.aos.getD 0⟩])) ∧
    (s.in_pass = false → step m s t (some m) = (s, [])) := by
  have hm : ¬ m < m := lt_irrefl m
  cases hip : s.in_pass <;> simp [step, hm, hip, le_refl]

/-- Witness for C4 at a concrete state and sample. -/
theorem C4_threshold_tie_break_witness :
    (step 10 ⟨true, some 0, 15⟩ 20 (some 10)).1.in_pass = false ∧
    step 10 ⟨true, some 0, 15⟩ 20 (some 10) =
      (⟨false, some 0, 15⟩, [⟨0, 20, 15, 20⟩]) ∧
    step 10 ⟨false, none, 0⟩ 20 (some 10) = (⟨false, none, 0⟩, []) := by
  refine ⟨(C4_threshold_tie_break 10 ⟨true, some 0, 15⟩ 20).1, ?_, ?_⟩
  · exact (C4_threshold_tie_break 10 ⟨true, some 0, 15⟩ 20).2.1 rfl
  · exact (C4_threshold_tie_break 10 ⟨false, none, 0⟩ 20).2.2 rfl

/-- Equation lemma: a failed propagation sample leaves the state unchanged
and emits nothing. -/
theorem step_none (m : ℚ) (s : DetState) (t : Nat) : step m s t none = (s, []) := rfl

/-- Equation lemma: a sample above the threshold in state Idle opens a pass. -/
theorem step_open (m el : ℚ) (s : DetState) (t : Nat) (h1 : m < el)
    (h2 : s.in_pass = false) : step m s t (some el) = (⟨true, some t, el⟩, []) := by
  simp [step, h1, h2]

/-- Equation lemma: a sample above the threshold in state InPass updates the
running maximum. -/
theorem step_cont (m el : ℚ) (s : DetState) (t : Nat) (h1 : m < el)
    (h2 : s.in_pass = true) :
    step m s t (some el) = (⟨true, s.aos, max s.max_el el⟩, []) := by
  simp [step, h1, h2]

/-- Equation lemma: a sample at or below the threshold in state InPass emits
the completed record and returns to Idle. -/
theorem step_close (m el : ℚ) (s : DetState) (t : Nat) (h1 : el ≤ m)
    (h2 : s.in_pass = true) :
    step m s t (some el) =
      (⟨false, s.aos, s.max_el⟩,
        [⟨s.aos.getD 0, t, s.max_el, t - s.aos.getD 0⟩]) := by
  have h3 : ¬ m < el := not_lt.mpr h1
  simp [step, h1, h2, h3]

/-- Equation lemma: a sample at or below the threshold in state Idle is a
no-op. -/
theorem step_idle (m el : ℚ) (s : DetState) (t : Nat) (h1 : el ≤ m)
    (h2 : s.in_pass = false) : step m s t (some el) = (s, []) := by
  have h3 : ¬ m < el := not_lt.mpr h1
  simp [step, h2, h3]

/-- Unfolding lemma for the scan loop on a cons cell. -/
theorem scanFrom_cons (m : ℚ) (s : DetState) (t : Nat) (x : Option ℚ)
    (l : List (Option ℚ)) :
    scanFrom m s t (x :: l) =
      (step m s t x).2 ++ scanFrom m (step m s t x).1 (t + 20) l := rfl

/-- A failed sample is skipped: the scan continues at the next step with the
state untouched. -/
theorem scanFrom_none (m : ℚ) (s : DetState) (t : Nat) (l : List (Option ℚ)) :
    scanFrom m s t (none :: l) = scanFrom m s (t + 20) l := rfl

/-- Scan unfolding when a pass opens. -/
theorem scanFrom_open (m el : ℚ) (s : DetState) (t : Nat) (l : List (Option ℚ))
    (h1 : m < el) (h2 : s.in_pass = false) :
    scanFrom m s t (some el :: l) = scanFrom m ⟨true, some t, el⟩ (t + 20) l := by
  simp [scanFrom_cons, step_open m el s t h1 h2]

/-- Scan unfolding inside a pass. -/
theorem scanFrom_cont (m el : ℚ) (s : DetState) (t : Nat) (l : List (Option ℚ))
    (h1 : m < el) (h2 : s.in_pass = true) :
    scanFrom m s t (some el :: l) =
      scanFrom m ⟨true, s.aos, max s.max_el el⟩ (t + 20) l := by
  simp [scanFrom_cons, step_cont m el s t h1 h2]

/-- Scan unfolding when a pass closes. -/
theorem scanFrom_close (m el : ℚ) (s : DetState) (t : Nat) (l : List (Option ℚ))
    (h1 : el ≤ m) (h2 : s.in_pass = true) :
    scanFrom m s t (some el :: l) =
      ⟨s.aos.getD 0, t, s.max_el, t - s.aos.getD 0⟩ ::
        scanFrom m ⟨false, s.aos, s.max_el⟩ (t + 20) l := by
  simp [scanFrom_cons, step_close m el s t h1 h2]

/-- Scan unfolding on an idle below-threshold sample. -/
theorem scanFrom_idle (m el : ℚ) (s : DetState) (t : Nat) (l : List (Option ℚ))
    (h1 : el ≤ m) (h2 : s.in_pass = false) :
    scanFrom m s t (some el :: l) = scanFrom m s (t + 20) l := by
  simp [scanFrom_cons, step_idle m el s t h1 h2]

/-- Elevations of the successful samples whose timestamp lies in the half-open
window from a inclusive to b exclusive, for a sample list whose head carries
timestamp t and whose later entries follow at the 20 second cadence. -/
def suffixElevs (a b : Nat) : Nat → List (Option ℚ) → List ℚ
  | _, [] => []
  | t, none :: rest => suffixElevs a b (t + 20) rest
  | t, some el :: rest =>
      (if a ≤ t ∧ t < b then [el] else []) ++ suffixElevs a b (t + 20) rest

/-- Maximum of a list of rationals, that of the empty list taken to be 0. -/
def listMax : List ℚ → ℚ
  | [] => 0
  | x :: xs => xs.foldl max x

/-- Folding the two leading elements of a maximum computation. -/
theorem listMax_pair (x y : ℚ) (l : List ℚ) :
    listMax (x :: y :: l) = listMax (max x y :: l) := rfl

/-- A window that ends at or before the first timestamp selects nothing. -/
theorem suffixElevs_past (a b : Nat) :
    ∀ (l : List (Option ℚ)) (t : Nat), b ≤ t → suffixElevs a b t l = [] := by
  intro l
  induction l with
  | nil => intro t _; rfl
  | cons x rest ih =>
    intro t ht
    cases x with
    | none => exact ih (t + 20) (by omega)
    | some el =>
      have hcond : ¬ (a ≤ t ∧ t < b) := by omega
      simp [suffixElevs, hcond, ih (t + 20) (by omega)]

/-- Soundness invariant of the scan loop: every record emitted from state s at
time t has los after aos, the duration in whole seconds, a maximal elevation
above the threshold, and the maximal elevation equal to the maximum of the
sampled elevations of its window; the window maximum is accounted against the
suffix alone when the pass opened inside the suffix, and against the running
max_el of s when the pass was already open on entry. -/
theorem scan_records_sound (m : ℚ) (samples : List (Option ℚ)) :
    ∀ (t : Nat) (s : DetState),
    (s.in_pass = true → ∃ a, s.aos = some a ∧ a < t ∧ m < s.max_el) →
    ∀ r ∈ scanFrom m s t samples,
      (r.aos < r.los ∧ r.duration_sec = r.los - r.aos ∧ m < r.max_elevation_deg) ∧
      (t ≤ r.aos → suffixElevs r.aos r.los t samples ≠ [] ∧
        r.max_elevation_deg = listMax (suffixElevs r.aos r.los t samples)) ∧
      (r.aos < t → s.in_pass = true ∧ s.aos = some r.aos ∧ t ≤ r.los ∧
        r.max_elevation_deg =
          listMax (s.max_el :: suffixElevs r.aos r.los t samples)) := by
  induction samples with
  | nil => intro t s _ r hr; simp [scanFrom] at hr
  | cons x rest ih =>
    intro t s hs r hr
    cases x with
    | none =>
      rw [scanFrom_none] at hr
      have hs2 : s.in_pass = true → ∃ a, s.aos = some a ∧ a < t + 20 ∧ m < s.max_el := by
        intro h
        obtain ⟨a, h1, h2, h3⟩ := hs h
        exact ⟨a, h1, by omega, h3⟩
      have H := ih (t + 20) s hs2 r hr
      refine ⟨H.1, ?_, ?_⟩
      · intro hta
        rcases Nat.lt_or_ge r.aos (t + 20) with hlt2 | hge2
        · obtain ⟨hip2, haos2, _, _⟩ := H.2.2 hlt2
          obtain ⟨a, h1, h2, _⟩ := hs hip2
          rw [h1] at haos2
          have ha : a = r.aos := by simpa using haos2
          omega
        · have hsuf := H.2.1 hge2
          simpa [suffixElevs] using hsuf
      · intro hta
        have hlt2 : r.aos < t + 20 := by omega
        obtain ⟨hip2, haos2, hlos2, hmax2⟩ := H.2.2 hlt2
        exact ⟨hip2, haos2, by omega, by simpa [suffixElevs] using hmax2⟩
    | some el =>
      rcases le_or_lt el m with hle | hlt
      · cases hip : s.in_pass with
        | true =>
          obtain ⟨a, haos, hat, hm⟩ := hs hip
          rw [scanFrom_close m el s t rest hle hip, haos] at hr
          simp only [Option.getD_some, List.mem_cons] at hr
          rcases hr with hreq | hr2
          · subst hreq
            refine ⟨⟨hat, rfl, hm⟩, ?_, ?_⟩
            · intro hta
              have hta2 : t ≤ a := hta
              exact absurd hta2 (by omega)
            · intro _
              refine ⟨rfl, haos, le_refl t, ?_⟩
              have h1 : ¬ (a ≤ t ∧ t < t) := by omega
              have h2 : suffixElevs a t (t + 20) rest = [] :=
                suffixElevs_past a t rest (t + 20) (by omega)
              simp [suffixElevs, h1, h2, listMax]
          · have H := ih (t + 20) ⟨false, some a, s.max_el⟩ (by simp) r hr2
            refine ⟨H.1, ?_, ?_⟩
            · intro hta
              rcases Nat.lt_or_ge r.aos (t + 20) with hlt2 | hge2
              · obtain ⟨hip2, _, _, _⟩ := H.2.2 hlt2
                simp at hip2
              · have hsuf := H.2.1 hge2
                have hcond : ¬ (r.aos ≤ t ∧ t < r.los) := by omega
                simpa [suffixElevs, hcond] using hsuf
            · intro hta
              have hlt2 : r.aos < t + 20 := by omega
              obtain ⟨hip2, _⟩ := H.2.2 hlt2
              simp at hip2
        | false =>
          rw [scanFrom_idle m el s t rest hle hip] at hr
          have H := ih (t + 20) s (by rw [hip]; simp) r hr
          refine ⟨H.1, ?_, ?_⟩
          · intro hta
            rcases Nat.lt_or_ge r.aos (t + 20) with hlt2 | hge2
            · obtain ⟨hip2, _⟩ := H.2.2 hlt2
              rw [hip] at hip2
              exact absurd hip2 (by simp)
            · have hsuf := H.2.1 hge2
              have hcond : ¬ (r.aos ≤ t ∧ t < r.los) := by omega
              simpa [suffixElevs, hcond] using hsuf
          · intro hta
            have hlt2 : r.aos < t + 20 := by omega
            obtain ⟨hip2, _⟩ := H.2.2 hlt2
            rw [hip] at hip2
            exact absurd hip2 (by simp)
      · cases hip : s.in_pass with
        | false =>
          rw [scanFrom_open m el s t rest hlt hip] at hr
          have H := ih (t + 20) ⟨true, some t, el⟩
            (by intro _; exact ⟨t, rfl, by omega, hlt⟩) r hr
          refine ⟨H.1, ?_, ?_⟩
          · intro hta
            rcases Nat.lt_or_ge r.aos (t + 20) with hlt2 | hge2
            · obtain ⟨_, haos2, hlos2, hmax2⟩ := H.2.2 hlt2
              have ht2 : t = r.aos := by simpa using haos2
              subst ht2
              have hcond : r.aos ≤ r.aos ∧ r.aos < r.los := ⟨le_refl _, by omega⟩
              constructor
              · simp [suffixElevs, hcond]
              · simpa [suffixElevs, hcond] using hmax2
            · have hsuf := H.2.1 hge2
              have hcond : ¬ (r.aos ≤ t ∧ t < r.los) := by omega
              simpa [suffixElevs, hcond] using hsuf
          · intro hta
            have hlt2 : r.aos < t + 20 := by omega
            obtain ⟨_, haos2, _, _⟩ := H.2.2 hlt2
            have ht2 : t = r.aos := by simpa using haos2
            omega
        | true =>
          obtain ⟨a, haos, hat, hm⟩ := hs hip
          rw [scanFrom_cont m el s t rest hlt hip] at hr
          have H := ih (t + 20) ⟨true, s.aos, max s.max_el el⟩
            (by intro _; exact ⟨a, haos, by omega, lt_of_lt_of_le hm (le_max_left _ _)⟩) r hr
          refine ⟨H.1, ?_, ?_⟩
          · intro hta
            rcases Nat.lt_or_ge r.aos (t + 20) with hlt2 | hge2
            · obtain ⟨_, haos2, _, _⟩ := H.2.2 hlt2
              have haos3 : s.aos = some r.aos := haos2
              rw [haos] at haos3
              have ha : a = r.aos := by simpa using haos3
              omega
            · have hsuf := H.2.1 hge2
              have hcond : ¬ (r.aos ≤ t ∧ t < r.los) := by omega
              simpa [suffixElevs, hcond] using hsuf
          · intro hta
            have hlt2 : r.aos < t + 20 := by omega
            obtain ⟨_, haos2, hlos2, hmax2⟩ := H.2.2 hlt2
            refine ⟨rfl, haos2, by omega, ?_⟩
            have hcond : r.aos ≤ t ∧ t < r.los := ⟨by omega, by omega⟩
            rw [show suffixElevs r.aos r.los t (some el :: rest) =
                  el :: suffixElevs r.aos r.los (t + 20) rest from by
                simp [suffixElevs, hcond]]
            rw [listMax_pair]
            exact hmax2

/-- C3: every emitted pass record has los strictly after aos, duration equal
to los minus aos in whole seconds, maximal elevation at least the configured
threshold, and maximal elevation equal to the maximum of all sample
elevations between aos and los, inclusive of the sample that triggered aos
and exclusive of the exit sample at los. -/
theorem C3_pass_record_invariants (m : ℚ) (samples : List (Option ℚ))
    (r : PassRecord) (hr : r ∈ predict_passes m samples) :
    r.aos < r.los ∧ r.duration_sec = r.los - r.aos ∧
    m ≤ r.max_elevation_deg ∧
    suffixElevs r.aos r.los 0 samples ≠ [] ∧
    r.max_elevation_deg = listMax (suffixElevs r.aos r.los 0 samples) := by
  have H := scan_records_sound m samples 0 ⟨false, none, 0⟩ (by simp) r hr
  obtain ⟨⟨h1, h2, h3⟩, h4, _⟩ := H
  obtain ⟨h5, h6⟩ := h4 (Nat.zero_le r.aos)
  exact ⟨h1, h2, le_of_lt h3, h5, h6⟩

/-- Witness for C3 on the record emitted by the scenario sequence. -/
theorem C3_pass_record_invariants_witness :
    (20 : Nat) < 80 ∧ (60 : Nat) = 80 - 20 ∧
    (10 : ℚ) ≤ 30 ∧
    suffixElevs 20 80 0 [some 2, some 15, some 30, some 15, some 2] ≠ [] ∧
    (30 : ℚ) = listMax (suffixElevs 20 80 0 [some 2, some 15, some 30, some 15, some 2]) := by
  exact C3_pass_record_invariants 10 [some 2, some 15, some 30, some 15, some 2]
    ⟨20, 80, 30, 60⟩ (by decide)

/-- Chronology predicate on a record list: each record starts no earlier than
the bound, ends strictly after it starts, and every later record starts
strictly after the los of its predecessor. -/
def chronoFrom : Nat → List PassRecord → Prop
  | _, [] => True
  | lo, r :: rs => lo ≤ r.aos ∧ r.aos < r.los ∧ chronoFrom (r.los + 1) rs

/-- Weakening the chronology bound. -/
theorem chronoFrom_mono (lo lo2 : Nat) (l : List PassRecord) (h : lo ≤ lo2)
    (hc : chronoFrom lo2 l) : chronoFrom lo l := by
  cases l with
  | nil => trivial
  | cons r rs => exact ⟨le_trans h hc.1, hc.2.1, hc.2.2⟩

/-- Lower bound for the chronology of the records still to be emitted from a
given state at a given time. -/
def lbOf (s : DetState) (t : Nat) : Nat :=
  if s.in_pass = true then s.aos.getD t else t

/-- Chronology invariant of the scan loop: the records emitted from state s
at time t are chronological from the bound of s, and every one of them has
aos and los at the 20 second grid with los after aos. -/
theorem scan_records_chrono (m : ℚ) (samples : List (Option ℚ)) :
    ∀ (t : Nat) (s : DetState),
    (s.in_pass = true → ∃ a, s.aos = some a ∧ a < t ∧ 20 ∣ a) →
    20 ∣ t →
    chronoFrom (lbOf s t) (scanFrom m s t samples) ∧
    ∀ r ∈ scanFrom m s t samples,
      20 ∣ r.aos ∧ 20 ∣ r.los ∧ r.aos < r.los ∧ r.duration_sec = r.los - r.aos := by
  induction samples with
  | nil => intro t s _ _; exact ⟨trivial, by simp [scanFrom]⟩
  | cons x rest ih =>
    intro t s hs ht
    cases x with
    | none =>
      rw [scanFrom_none]
      have H := ih (t + 20) s
        (fun h => by obtain ⟨a, h1, h2, h3⟩ := hs h; exact ⟨a, h1, by omega, h3⟩)
        (by omega)
      refine ⟨?_, H.2⟩
      have hc := H.1
      cases hip : s.in_pass with
      | true =>
        obtain ⟨a, h1, _, _⟩ := hs hip
        have e1 : lbOf s t = a := by simp [lbOf, hip, h1]
        have e2 : lbOf s (t + 20) = a := by simp [lbOf, hip, h1]
        rw [e2] at hc
        rw [e1]
        exact hc
      | false =>
        have e1 : lbOf s t = t := by simp [lbOf, hip]
        have e2 : lbOf s (t + 20) = t + 20 := by simp [lbOf, hip]
        rw [e2] at hc
        rw [e1]
        exact chronoFrom_mono t (t + 20) _ (by omega) hc
    | some el =>
      rcases le_or_lt el m with hle | hlt
      · cases hip : s.in_pass with
        | true =>
          obtain ⟨a, haos, hat, hdva⟩ := hs hip
          rw [scanFrom_close m el s t rest hle hip, haos]
          simp only [Option.getD_some]
          have H := ih (t + 20) ⟨false, some a, s.max_el⟩ (by simp) (by omega)
          have hc := H.1
          have e2 : lbOf ⟨false, some a, s.max_el⟩ (t + 20) = t + 20 := by simp [lbOf]
          rw [e2] at hc
          constructor
          · have e1 : lbOf s t = a := by simp [lbOf, hip, haos]
            rw [e1]
            exact ⟨le_refl a, hat, chronoFrom_mono (t + 1) (t + 20) _ (by omega) hc⟩
          · intro r hr
            rcases List.mem_cons.mp hr with hreq | hr2
            · subst hreq
              exact ⟨hdva, ht, hat, rfl⟩
            · exact H.2 r hr2
        | false =>
          rw [scanFrom_idle m el s t rest hle hip]
          have H := ih (t + 20) s (by rw [hip]; simp) (by omega)
          refine ⟨?_, H.2⟩
          have hc := H.1
          have e1 : lbOf s t = t := by simp [lbOf, hip]
          have e2 : lbOf s (t + 20) = t + 20 := by simp [lbOf, hip]
          rw [e2] at hc
          rw [e1]
          exact chronoFrom_mono t (t + 20) _ (by omega) hc
      · cases hip : s.in_pass with
        | false =>
          rw [scanFrom_open m el s t rest hlt hip]
          have H := ih (t + 20) ⟨true, some t, el⟩
            (by intro _; exact ⟨t, rfl, by omega, ht⟩) (by omega)
          refine ⟨?_, H.2⟩
          have hc := H.1
          have e2 : lbOf ⟨true, some t, el⟩ (t + 20) = t := by simp [lbOf]
          rw [e2] at hc
          have e1 : lbOf s t = t := by simp [lbOf, hip]
          rw [e1]
          exact hc
        | true =>
          obtain ⟨a, haos, hat, hdva⟩ := hs hip
          rw [scanFrom_cont m el s t rest hlt hip]
          have H := ih (t + 20) ⟨true, s.aos, max s.max_el el⟩
            (by intro _; exact ⟨a, haos, by omega, hdva⟩) (by omega)
          refine ⟨?_, H.2⟩
          have hc := H.1
          have e2 : lbOf ⟨true, s.aos, max s.max_el el⟩ (t + 20) = a := by
            simp [lbOf, haos]
          rw [e2] at hc
          have e1 : lbOf s t = a := by simp [lbOf, hip, haos]
          rw [e1]
          exact hc

/-- C10: every emitted record has a duration that is a positive multiple of
the 20 second scan step, even across failed propagation samples inside the
pass, and the emitted records are chronological and disjoint: chronoFrom 0
states that each record ends strictly after it starts and each later record
starts strictly after the los of its predecessor. -/
theorem C10_duration_quantized (m : ℚ) (samples : List (Option ℚ)) :
    chronoFrom 0 (predict_passes m samples) ∧
    ∀ r ∈ predict_passes m samples,
      20 ∣ r.duration_sec ∧ 20 ≤ r.duration_sec := by
  have H := scan_records_chrono m samples 0 ⟨false, none, 0⟩ (by simp) ⟨0, rfl⟩
  constructor
  · have e : lbOf ⟨false, none, 0⟩ 0 = 0 := by simp [lbOf]
    have hc := H.1
    rw [e] at hc
    exact hc
  · intro r hr
    obtain ⟨h1, h2, h3, h4⟩ := H.2 r hr
    refine ⟨?_, ?_⟩
    · rw [h4]
      exact Nat.dvd_sub' h2 h1
    · rw [h4]
      exact Nat.le_of_dvd (by omega) (Nat.dvd_sub' h2 h1)

/-- Witness for C10 on the scenario sequence and its emitted record. -/
theorem C10_duration_quantized_witness :
    chronoFrom 0 (predict_passes 10 [some 2, some 15, some 30, some 15, some 2]) ∧
    20 ∣ (⟨20, 80, 30, 60⟩ : PassRecord).duration_sec ∧
    20 ≤ (⟨20, 80, 30, 60⟩ : PassRecord).duration_sec := by
  refine ⟨(C10_duration_quantized 10 _).1, ?_⟩
  exact (C10_duration_quantized 10 [some 2, some 15, some 30, some 15, some 2]).2
    ⟨20, 80, 30, 60⟩ (by decide)

/-- End state and end time of the scan loop over a sample list. -/
def scanEnd (m : ℚ) : DetState → Nat → List (Option ℚ) → DetState × Nat
  | s, t, [] => (s, t)
  | s, t, x :: rest => scanEnd m (step m s t x).1 (t + 20) rest

/-- The scan of an appended list splits at the end state of the first part. -/
theorem scanFrom_append (m : ℚ) (l1 : List (Option ℚ)) :
    ∀ (l2 : List (Option ℚ)) (s : DetState) (t : Nat),
    scanFrom m s t (l1 ++ l2) =
      scanFrom m s t l1 ++
        scanFrom m (scanEnd m s t l1).1 (scanEnd m s t l1).2 l2 := by
  induction l1 with
  | nil => intro l2 s t; simp [scanFrom, scanEnd]
  | cons x rest ih =>
    intro l2 s t
    simp only [List.cons_append, scanFrom_cons, scanEnd, ih, List.append_assoc]

/-- A scan segment all of whose successful samples lie above the threshold
emits nothing: the close transition needs a sample at or below the
threshold. -/
theorem scanFrom_no_close (m : ℚ) :
    ∀ (extra : List (Option ℚ)), (∀ el : ℚ, some el ∈ extra → m < el) →
    ∀ (s : DetState) (t : Nat), scanFrom m s t extra = [] := by
  intro extra
  induction extra with
  | nil => intro _ s t; rfl
  | cons x rest ih =>
    intro h s t
    have hrest : ∀ el : ℚ, some el ∈ rest → m < el :=
      fun el hel => h el (List.mem_cons_of_mem _ hel)
    cases x with
    | none =>
      rw [scanFrom_none]
      exact ih hrest s (t + 20)
    | some el =>
      have hel : m < el := h el (List.mem_cons_self _ _)
      cases hip : s.in_pass with
      | false =>
        rw [scanFrom_open m el s t rest hel hip]
        exact ih hrest _ (t + 20)
      | true =>
        rw [scanFrom_cont m el s t rest hel hip]
        exact ih hrest _ (t + 20)

/-- C5: a trailing segment of the window whose successful samples all stay
above the threshold contributes no record: the excursion that is still open
when the window ends is discarded without emitting a pass. -/
theorem C5_unfinished_pass_discarded (m : ℚ) (samples extra : List (Option ℚ))
    (h : ∀ el : ℚ, some el ∈ extra → m < el) :
    predict_passes m (samples ++ extra) = predict_passes m samples := by
  unfold predict_passes
  rw [scanFrom_append m samples extra ⟨false, none, 0⟩ 0,
    scanFrom_no_close m extra h _ _, List.append_nil]

/-- Witness for C5: an excursion crossing the threshold at the final scanned
sample emits no pass. -/
theorem C5_unfinished_pass_discarded_witness :
    predict_passes 10 ([some 2] ++ [some 15]) = predict_passes 10 [some 2] := by
  refine C5_unfinished_pass_discarded 10 [some 2] [some 15] ?_
  intro el hel
  simp only [List.mem_singleton, Option.some.injEq] at hel
  rw [hel]
  norm_num

/-- The scan of a window in which the propagator fails at every sample emits
no record at all. -/
theorem scanFrom_all_none (m : ℚ) (n : Nat) :
    ∀ (s : DetState) (t : Nat), scanFrom m s t (List.replicate n none) = [] := by
  induction n with
  | zero => intro s t; rfl
  | succ k ih =>
    intro s t
    rw [List.replicate_succ, scanFrom_none]
    exact ih s (t + 20)

/-- Geodetic fix row as inserted into the orbit_path table; the timestamp is
the whole-second offset of the sample instant from the start of the window. -/
structure GeodeticFix where
  latitude : ℝ
  longitude : ℝ
  altitude_km : ℝ
  timestamp : Nat

/-- Sample instants of the ground-track window, range(0, minutes*60, 30) of
the source: the half-open window of the stated length at the 30 second
step. -/
def orbitTimes (minutes : Nat) : List Nat :=
  (List.range (minutes * 60 / 30)).map (fun i => 30 * i)

/-- The sampling loop of generate_orbit_path: the propagator is queried at
each instant; a nonzero status (none) skips the instant, and a success
inserts the geodetic fix derived by eci_to_latlon from the returned
position. -/
noncomputable def orbit_samples (prop : Nat → Option (ℝ × ℝ × ℝ))
    (minutes : Nat) : List GeodeticFix :=
  (orbitTimes minutes).filterMap fun t =>
    (prop t).map fun r =>
      ⟨(eci_to_latlon r).1, (eci_to_latlon r).2.1, (eci_to_latlon r).2.2, t⟩

/-- Source function generate_orbit_path as a transformer of the stored
ground-track rows of the satellite: the supabase delete clears every stored
row of the satellite before the loop inserts the fresh samples, so the
result does not depend on the previous store. -/
noncomputable def generate_orbit_path (_store : List GeodeticFix)
    (prop : Nat → Option (ℝ × ℝ × ℝ)) (minutes : Nat) : List GeodeticFix :=
  ([] : List GeodeticFix) ++ orbit_samples prop minutes

/-- C6: a sample with nonzero propagator status is skipped without changing
the detector state, the scan continues at the next step with the in_pass
flag, aos and max_el all preserved and nothing emitted, and a window in
which the propagator fails everywhere emits zero pass records and produces
zero geodetic fixes. -/
theorem C6_failed_samples_skipped (m : ℚ) (s : DetState) (t n : Nat)
    (rest : List (Option ℚ)) (prop : Nat → Option (ℝ × ℝ × ℝ))
    (store : List GeodeticFix) :
    step m s t none = (s, []) ∧
    scanFrom m s t (none :: rest) = scanFrom m s (t + 20) rest ∧
    predict_passes m (List.replicate n none) = [] ∧
    ((∀ u : Nat, prop u = none) → generate_orbit_path store prop 30 = []) := by
  refine ⟨rfl, rfl, ?_, ?_⟩
  · unfold predict_passes
    exact scanFrom_all_none m n ⟨false, none, 0⟩ 0
  · intro h
    simp [generate_orbit_path, orbit_samples, h]

/-- Witness for C6 at concrete inputs. -/
theorem C6_failed_samples_skipped_witness :
    step 10 ⟨true, some 0, 15⟩ 40 none = (⟨true, some 0, 15⟩, []) ∧
    scanFrom 10 ⟨true, some 0, 15⟩ 40 (none :: [some 2]) =
      scanFrom 10 ⟨true, some 0, 15⟩ 60 [some 2] ∧
    predict_passes 10 (List.replicate 3 none) = [] ∧
    generate_orbit_path [] (fun _ => none) 30 = [] := by
  have H := C6_failed_samples_skipped 10 ⟨true, some 0, 15⟩ 40 3 [some 2]
    (fun _ => none) []
  exact ⟨H.1, H.2.1, H.2.2.1, H.2.2.2 (fun u => rfl)⟩

/-- The length of a filterMap is the length of the filter by definedness. -/
theorem length_filterMap_isSome {α β : Type} (f : α → Option β) :
    ∀ l : List α,
      (l.filterMap f).length = (l.filter (fun a => (f a).isSome)).length := by
  intro l
  induction l with
  | nil => rfl
  | cons x rest ih =>
    cases hx : f x with
    | none => simp [List.filterMap_cons, List.filter_cons, hx, ih]
    | some b => simp [List.filterMap_cons, List.filter_cons, hx, ih]

/-- The output length of the sampler is the number of successful instants. -/
theorem orbit_samples_length (prop : Nat → Option (ℝ × ℝ × ℝ)) (minutes : Nat) :
    (orbit_samples prop minutes).length =
      ((orbitTimes minutes).filter (fun u => (prop u).isSome)).length := by
  rw [orbit_samples, length_filterMap_isSome]
  congr 1
  apply List.filter_congr
  intro u _
  cases prop u <;> rfl

/-- C9: the ground-track sampler covers the half-open 30 minute window at the
fixed 30 second step: each emitted fix carries one of the window instants and
a successful propagation, the output length is exactly the number of
successful instants (failed instants are skipped, never padded), the nominal
all-success case yields exactly 60 samples, and the stored rows of the
satellite are fully replaced independently of the previous store. -/
theorem C9_ground_track_window (prop : Nat → Option (ℝ × ℝ × ℝ))
    (store : List GeodeticFix) :
    generate_orbit_path store prop 30 = orbit_samples prop 30 ∧
    (orbit_samples prop 30).length =
      ((orbitTimes 30).filter (fun u => (prop u).isSome)).length ∧
    (∀ f ∈ orbit_samples prop 30,
      f.timestamp ∈ orbitTimes 30 ∧ (prop f.timestamp).isSome = true) ∧
    (∀ u ∈ orbitTimes 30, 30 ∣ u ∧ u < 30 * 60) ∧
    ((∀ u ∈ orbitTimes 30, (prop u).isSome = true) →
      (orbit_samples prop 30).length = 60) := by
  refine ⟨rfl, orbit_samples_length prop 30, ?_, ?_, ?_⟩
  · intro f hf
    simp only [orbit_samples, List.mem_filterMap] at hf
    obtain ⟨u, hu, heq⟩ := hf
    rcases Option.map_eq_some'.mp heq with ⟨r, hr, hmk⟩
    subst hmk
    exact ⟨hu, by rw [hr]; rfl⟩
  · intro u hu
    simp only [orbitTimes, List.mem_map, List.mem_range] at hu
    obtain ⟨i, hi, rfl⟩ := hu
    exact ⟨⟨i, rfl⟩, by omega⟩
  · intro h
    rw [orbit_samples_length, List.filter_eq_self.mpr h]
    simp [orbitTimes]

/-- Witness for C9: the nominal all-success window has exactly 60 samples. -/
theorem C9_ground_track_window_witness :
    (orbit_samples (fun _ => some (1, 0, 0)) 30).length = 60 := by
  exact (C9_ground_track_window (fun _ => some (1, 0, 0)) []).2.2.2.2
    (fun u _ => rfl)

/-- C8: the geodetic transform returns longitude atan2 y x and latitude
atan2 z (sqrt (x*x + y*y)), both converted to degrees, the altitude is
exactly the Euclidean norm of the position minus the Earth radius, and the
zero vector yields the nominal result (0, 0, -EARTH_RADIUS) rather than
raising. -/
theorem C8_geodetic_transform (x y z : ℝ) :
    eci_to_latlon (x, y, z) =
      (degrees (atan2 z (Real.sqrt (x * x + y * y))), degrees (atan2 y x),
        ‖(WithLp.equiv 2 (Fin 3 → ℝ)).symm ![x, y, z]‖ - EARTH_RADIUS) ∧
    eci_to_latlon (0, 0, 0) = (0, 0, -EARTH_RADIUS) := by
  constructor
  · unfold eci_to_latlon
    simp only [Prod.mk.injEq]
    refine ⟨trivial, trivial, ?_⟩
    congr 1
    rw [EuclideanSpace.norm_eq]
    congr 1
    simp only [WithLp.equiv_symm_pi_apply, Fin.sum_univ_three,
      Matrix.cons_val_zero, Matrix.cons_val_one, Matrix.head_cons,
      Matrix.cons_val_two, Matrix.tail_cons, Real.norm_eq_abs, sq_abs]
    ring
  · unfold eci_to_latlon atan2 degrees
    norm_num

/-- C1: the source divides the inverse-sine argument by the fixed constant
EARTH_RADIUS rather than by the true magnitude of the station position
vector.  At a station of altitude 1 on the equator and prime meridian with
the satellite directly overhead at twice the station radius, the code
computes the argument (EARTH_RADIUS + 1) / EARTH_RADIUS while the formula of
the spec gives exactly 1, an elevation of 90 degrees; the two computations
therefore disagree whenever the station altitude is nonzero. -/
theorem C1_divisor_uses_fixed_earth_radius :
    elevAsinArg ⟨0, 0, 1⟩ (2 * (EARTH_RADIUS + 1), 0, 0) =
      (EARTH_RADIUS + 1) / EARTH_RADIUS ∧
    elevAsinArgSpec ⟨0, 0, 1⟩ (2 * (EARTH_RADIUS + 1), 0, 0) = 1 ∧
    elevAsinArg ⟨0, 0, 1⟩ (2 * (EARTH_RADIUS + 1), 0, 0) ≠
      elevAsinArgSpec ⟨0, 0, 1⟩ (2 * (EARTH_RADIUS + 1), 0, 0) ∧
    elevationSpec ⟨0, 0, 1⟩ (2 * (EARTH_RADIUS + 1), 0, 0) = 90 := by
  have hR : (0 : ℝ) < EARTH_RADIUS := by norm_num [EARTH_RADIUS]
  have hR1 : (0 : ℝ) < EARTH_RADIUS + 1 := by linarith
  have key : 2 * (EARTH_RADIUS + 1) - (EARTH_RADIUS + 1) = EARTH_RADIUS + 1 := by
    ring
  have e1 : elevAsinArg ⟨0, 0, 1⟩ (2 * (EARTH_RADIUS + 1), 0, 0) =
      (EARTH_RADIUS + 1) / EARTH_RADIUS := by
    unfold elevAsinArg
    simp only [Real.cos_zero, Real.sin_zero, mul_one, mul_zero, zero_mul,
      sub_zero, add_zero, zero_add]
    rw [key, Real.sqrt_mul_self (le_of_lt hR1)]
    exact mul_div_mul_left _ _ (ne_of_gt hR1)
  have e2 : elevAsinArgSpec ⟨0, 0, 1⟩ (2 * (EARTH_RADIUS + 1), 0, 0) = 1 := by
    unfold elevAsinArgSpec
    simp only [Real.cos_zero, Real.sin_zero, mul_one, mul_zero, zero_mul,
      sub_zero, add_zero, zero_add]
    rw [key, Real.sqrt_mul_self (le_of_lt hR1)]
    exact div_self (ne_of_gt (mul_pos hR1 hR1))
  refine ⟨e1, e2, ?_, ?_⟩
  · rw [e1, e2]
    intro hcontra
    have h3 : EARTH_RADIUS + 1 = EARTH_RADIUS :=
      (div_eq_one_iff_eq (ne_of_gt hR)).mp hcontra
    linarith
  · unfold elevationSpec
    rw [e2, Real.arcsin_one]
    unfold degrees
    rw [div_eq_iff Real.pi_ne_zero]
    ring

/-- C2: the source passes the inverse-sine argument to math.asin without any
clamping; at a station of altitude 1 with the satellite directly overhead,
the argument is (EARTH_RADIUS + 1) / EARTH_RADIUS, strictly greater than 1,
so math.asin raises the domain fault modelled by none instead of returning
an elevation in [-90, 90]. -/
theorem C2_no_clamp_domain_fault :
    1 < elevAsinArg ⟨0, 0, 1⟩ (3 * (EARTH_RADIUS + 1), 0, 0) ∧
    elevation_angle ⟨0, 0, 1⟩ (3 * (EARTH_RADIUS + 1), 0, 0) = none := by
  have hR : (0 : ℝ) < EARTH_RADIUS := by norm_num [EARTH_RADIUS]
  have hR1 : (0 : ℝ) < EARTH_RADIUS + 1 := by linarith
  have hR2 : (0 : ℝ) < 2 * (EARTH_RADIUS + 1) := by linarith
  have key : 3 * (EARTH_RADIUS + 1) - (EARTH_RADIUS + 1) =
      2 * (EARTH_RADIUS + 1) := by ring
  have e1 : elevAsinArg ⟨0, 0, 1⟩ (3 * (EARTH_RADIUS + 1), 0, 0) =
      (EARTH_RADIUS + 1) / EARTH_RADIUS := by
    unfold elevAsinArg
    simp only [Real.cos_zero, Real.sin_zero, mul_one, mul_zero, zero_mul,
      sub_zero, add_zero, zero_add]
    rw [key, Real.sqrt_mul_self (le_of_lt hR2)]
    exact mul_div_mul_left _ _ (ne_of_gt hR2)
  have hgt : 1 < (EARTH_RADIUS + 1) / EARTH_RADIUS := by
    rw [lt_div_iff₀ hR]
    linarith
  refine ⟨by rw [e1]; exact hgt, ?_⟩
  unfold elevation_angle asinOpt
  rw [e1]
  simp [hgt]

end Satellite
